import Mathlib

/-!
Shallow embedding of `src/backend/mcp_manager.py` (MCP server manager).

The Python module supervises tool-provider child processes speaking
newline-delimited JSON-RPC over stdio.  The embedding below models the
JSON values exchanged on the wire, the per-session request/response and
result-shaping logic of `MCPServer`, the reader loop over stdout lines,
and the supervisor logic of `MCPManager` (registry, qualified-name
routing, partial-failure isolation in `start_all`).

Conventions of the embedding:
* JSON documents are the inductive `JValue`; Python dicts become ordered
  association lists with unique keys (`json.loads` of protocol messages).
* Python exceptions become `Except PyError`; a returned value is `.ok`,
  a raised exception is `.error`.
* The child process and its streams are abstracted by the flag
  `MCPServer.running` (the code checks `self.process`/`self.process.stdin`
  at lines 136 and 171) and by a `respond` oracle mapping the request
  object written to stdin to the outcome observed by the waiting future:
  either the message the reader loop resolved it with, or a timeout.
* `str(self.timeout)` is carried as the string field `timeoutStr`
  (Python renders the float, e.g. "120.0").
-/

namespace MCPMgr

/-- JSON values, as produced by `json.loads` on one protocol line.
Numbers are modelled as integers; the claims never depend on float
rendering inside JSON documents. -/
inductive JValue where
  | null : JValue
  | bool : Bool → JValue
  | num : Int → JValue
  | str : String → JValue
  | arr : List JValue → JValue
  | obj : List (String × JValue) → JValue

/-- Python exceptions that the modelled code paths can raise. -/
inductive PyError where
  | keyError : String → PyError
  | typeError : PyError
  | attrError : PyError
  | notRunning : String → PyError
deriving DecidableEq

/-- First-match lookup in an association list (Python dict access by key;
protocol dicts have unique keys). -/
def lookupF (fs : List (String × JValue)) (k : String) : Option JValue :=
  match fs with
  | [] => none
  | (k1, v) :: rest => if k1 = k then some v else lookupF rest k

/-- Python `key in d` for a JSON object; the modelled responses are
always dicts, so the non-dict membership semantics are not needed. -/
def pyIn (j : JValue) (k : String) : Bool :=
  match j with
  | .obj fs => (lookupF fs k).isSome
  | _ => false

/-- Python subscript `j[k]`: `KeyError` on a missing dict key,
`TypeError` when subscripting a non-dict with a string. -/
def getItem (j : JValue) (k : String) : Except PyError JValue :=
  match j with
  | .obj fs =>
    match lookupF fs k with
    | some v => .ok v
    | none => .error (.keyError k)
  | _ => .error .typeError

/-- Python `j.get(k, d)`: default on a missing key, `AttributeError`
when the receiver is not a dict. -/
def pyGet (j : JValue) (k : String) (d : JValue) : Except PyError JValue :=
  match j with
  | .obj fs => .ok ((lookupF fs k).getD d)
  | _ => .error .attrError

/-- Escaping of the modelled character fragment for `json.dumps`
string rendering. -/
def escChar (c : Char) : String :=
  if c = Char.ofNat 34 then String.singleton (Char.ofNat 92) ++ String.singleton (Char.ofNat 34)
  else if c = Char.ofNat 92 then String.singleton (Char.ofNat 92) ++ String.singleton (Char.ofNat 92)
  else String.singleton c

/-- String body rendering for `json.dumps`. -/
def escStr (s : String) : String :=
  String.join (s.data.map escChar)

mutual

/-- `json.dumps` on the modelled JSON fragment, with the default
separators (", " and ": ") used by the code at line 269. -/
def dumps : JValue → String
  | .null => "null"
  | .bool b => if b then "true" else "false"
  | .num n => toString n
  | .str s => String.singleton (Char.ofNat 34) ++ escStr s ++ String.singleton (Char.ofNat 34)
  | .arr xs => "[" ++ dumpsList xs ++ "]"
  | .obj fs => "\x7b" ++ dumpsFields fs ++ "\x7d"

/-- Comma-separated rendering of a JSON array body. -/
def dumpsList : List JValue → String
  | [] => ""
  | [x] => dumps x
  | x :: y :: rest => dumps x ++ ", " ++ dumpsList (y :: rest)

/-- Comma-separated rendering of a JSON object body. -/
def dumpsFields : List (String × JValue) → String
  | [] => ""
  | [(k, v)] => String.singleton (Char.ofNat 34) ++ escStr k ++ String.singleton (Char.ofNat 34) ++ ": " ++ dumps v
  | (k, v) :: f :: rest =>
    String.singleton (Char.ofNat 34) ++ escStr k ++ String.singleton (Char.ofNat 34) ++ ": " ++ dumps v
      ++ ", " ++ dumpsFields (f :: rest)

end

/-- A single quotation mark character, for building the Python error
message strings. -/
def sq : String := String.singleton (Char.ofNat 39)

/-- A raw tool descriptor from a `tools/list` result: a dict whose
`"name"` entry is the string `name`; its remaining entries
(description, inputSchema, ...) are carried verbatim in `extra`. -/
structure RawTool where
  name : String
  extra : List (String × JValue)

/-- A tool descriptor after `MCPServer.get_tools` (lines 292-302):
the dict copy with `"name"` overwritten by the qualified name and the
`"mcp_server"` / `"original_name"` entries added. -/
structure QualifiedTool where
  name : String
  mcp_server : String
  original_name : String
  extra : List (String × JValue)

/-- State of one `MCPServer` session relevant to the modelled paths.
`running` abstracts `self.process is not None and self.process.stdin is
not None` (checked at lines 136 and 171); `timeoutStr` is the Python
rendering `str(self.timeout)` used in the timeout message (line 167);
`tools` is `self.tools` as fetched by `_fetch_tools`. -/
structure MCPServer where
  name : String
  tools : List RawTool
  running : Bool
  timeoutStr : String

/-- `MCPServer.get_tools` (lines 292-302): server-name prefixing of the
tool catalog. -/
def MCPServer.get_tools (s : MCPServer) : List QualifiedTool :=
  s.tools.map (fun tool =>
    { name := s.name ++ "__" ++ tool.name
      mcp_server := s.name
      original_name := tool.name
      extra := tool.extra })

/-- Outcome observed by the future awaited in `_send_request`: either
the reader loop resolved it with a full response message, or no
resolution happened within `self.timeout` seconds. -/
inductive SendOutcome where
  | reply : JValue → SendOutcome
  | timeout : SendOutcome

/-- The JSON-RPC request object built at lines 144-149. -/
def mkRequest (request_id method : String) (params : JValue) : JValue :=
  .obj [("jsonrpc", .str "2.0"), ("id", .str request_id),
        ("method", .str method), ("params", params)]

/-- The synthetic timeout error object returned at line 167. -/
def timeoutErrorObj (t : String) : JValue :=
  .obj [("error", .obj [("code", .num (-1)),
        ("message", .str ("Request timeout after " ++ t ++ "s"))])]

/-- `MCPServer._send_request` (lines 134-167).  `pending` is the key set
of `self.pending_requests`; `request_id` is the fresh `uuid.uuid4()`
string; `respond` abstracts the child process and reader loop.  The id
is inserted into the pending table (line 153) strictly before the
request line is written to stdin (lines 156-158); on a reply the reader
loop has popped the entry (line 201), and on a timeout the entry is
deleted (line 165) and the synthetic error object is returned rather
than raised (line 167). -/
def MCPServer.send_request (s : MCPServer) (pending : List String)
    (request_id method : String) (params : JValue)
    (respond : JValue → SendOutcome) : Except PyError JValue × List String :=
  if s.running then
    let pending1 := pending ++ [request_id]
    match respond (mkRequest request_id method params) with
    | .reply msg => (.ok msg, pending1.erase request_id)
    | .timeout => (.ok (timeoutErrorObj s.timeoutStr), pending1.erase request_id)
  else
    (.error (.notRunning s.name), pending)

/-- The content-list scan of `MCPServer.call_tool` (lines 249-259):
collects the `text` values of text-typed items and the image dicts of
image-typed items, in order; any `.get` on a non-dict item raises. -/
def extractContent : List JValue → Except PyError (List JValue × List JValue)
  | [] => .ok ([], [])
  | item :: rest => do
    let t ← pyGet item "type" .null
    match t with
    | .str tag =>
      if tag = "text" then do
        let tx ← pyGet item "text" (.str "")
        let (ts, is) ← extractContent rest
        .ok (tx :: ts, is)
      else if tag = "image" then do
        let d ← pyGet item "data" (.str "")
        let m ← pyGet item "mimeType" (.str "image/png")
        let (ts, is) ← extractContent rest
        .ok (ts, JValue.obj [("data", d), ("mimeType", m)] :: is)
      else
        extractContent rest
    | _ => extractContent rest

/-- Python `"\n".join(text_parts)` (line 267): `TypeError` unless every
collected part is a string. -/
def joinStrs : List JValue → Except PyError String
  | [] => .ok ""
  | [.str s] => .ok s
  | .str s :: v :: rest => do
    let r ← joinStrs (v :: rest)
    .ok (s ++ "\n" ++ r)
  | _ => .error .typeError

/-- The `response_data` dict assembled at lines 261-273, in Python key
insertion order: `isError`, `result`, and `images` only when nonempty. -/
def respData (isErr : JValue) (resultStr : String) (images : List JValue) : JValue :=
  .obj ([("isError", isErr), ("result", .str resultStr)]
    ++ if images.isEmpty then [] else [("images", .arr images)])

/-- The response post-processing of `MCPServer.call_tool` (lines
239-275), applied to the dict returned by `_send_request`. -/
def processResponse (response : JValue) : Except PyError JValue :=
  if pyIn response "error" then do
    let err ← getItem response "error"
    let msg ← getItem err "message"
    .ok (.obj [("error", msg), ("isError", .bool true)])
  else do
    let result ← pyGet response "result" (.obj [])
    let contentv ← pyGet result "content" (.arr [])
    match contentv with
    | .arr content => do
      let (text_parts, images) ← extractContent content
      let isErr ← pyGet result "isError" (.bool false)
      if text_parts.isEmpty then
        .ok (respData isErr (dumps result) images)
      else do
        let joined ← joinStrs text_parts
        .ok (respData isErr joined images)
    | _ => .error .typeError

/-- `MCPServer.call_tool` (lines 232-275): issues `tools/call` with the
`{name, arguments}` params through `_send_request`, then shapes the
response. -/
def MCPServer.call_tool (s : MCPServer) (pending : List String)
    (request_id tool_name : String) (arguments : JValue)
    (respond : JValue → SendOutcome) : Except PyError JValue × List String :=
  match s.send_request pending request_id "tools/call"
      (.obj [("name", .str tool_name), ("arguments", arguments)]) respond with
  | (.error e, p1) => (.error e, p1)
  | (.ok response, p1) => (processResponse response, p1)

/-- Scan for the first occurrence of the two-character delimiter `__`
in a character list; on a hit, return the part before it and the part
after it.  `none` models Python `"__" not in tool_name` (line 363), and
a hit models `tool_name.split("__", 1)` (line 366), which splits on the
leftmost occurrence. -/
def findSplit2 : List Char → Option (List Char × List Char)
  | [] => none
  | [_] => none
  | c1 :: c2 :: rest =>
    if c1 = '_' ∧ c2 = '_' then some ([], rest)
    else
      match findSplit2 (c2 :: rest) with
      | some (p, r) => some (c1 :: p, r)
      | none => none

/-- Python `"__" in s`. -/
def containsDU (s : String) : Bool := (findSplit2 s.data).isSome

/-- Whether a character list ends with an underscore. -/
def endsWithU : List Char → Bool
  | [] => false
  | [c] => c = '_'
  | _ :: c :: rest => endsWithU (c :: rest)

/-- The `{"error": ..., "isError": True}` dict returned by
`MCPManager.call_tool` for a name without the delimiter (line 364). -/
def invalidNameObj (tool_name : String) : JValue :=
  .obj [("error", .str ("Invalid tool name format: " ++ tool_name)),
        ("isError", .bool true)]

/-- The `{"error": ..., "isError": True}` dict returned by
`MCPManager.call_tool` for an unregistered server segment (line 369). -/
def unknownServerObj (server_name : String) : JValue :=
  .obj [("error", .str ("MCP server " ++ sq ++ server_name ++ sq ++ " not found")),
        ("isError", .bool true)]

/-- First-match lookup in the registry association list
(`self.servers`, a Python dict keyed by server name). -/
def dictLookup (d : List (String × MCPServer)) (k : String) : Option MCPServer :=
  match d with
  | [] => none
  | (k1, v) :: rest => if k1 = k then some v else dictLookup rest k

/-- Python dict assignment `d[k] = v`: overwrite in place when the key
exists, append otherwise. -/
def dictSet (d : List (String × MCPServer)) (k : String) (v : MCPServer) :
    List (String × MCPServer) :=
  match d with
  | [] => [(k, v)]
  | (k1, v1) :: rest => if k1 = k then (k, v) :: rest else (k1, v1) :: dictSet rest k v

/-- `MCPManager` state: the registry `self.servers`. -/
structure MCPManager where
  servers : List (String × MCPServer)

/-- The per-entry loop of `MCPManager.start_all` (lines 324-340): for
each configured `(name, server_config)` the construction and
`server.start()` are attempted inside a `try`; `spawn` returns the
started session, or `none` when that attempt raised (the `except` at
lines 339-340 logs and continues with the next entry).  Only successful
entries are assigned into `self.servers` (line 337). -/
def MCPManager.start_all (cfg : List (String × JValue))
    (spawn : String → JValue → Option MCPServer) : MCPManager :=
  ⟨cfg.foldl (fun servers nc =>
      match spawn nc.1 nc.2 with
      | some server => dictSet servers nc.1 server
      | none => servers) []⟩

/-- `MCPManager.get_all_tools` (lines 353-358): concatenation of each
registered session's prefixed catalog, in registry order. -/
def MCPManager.get_all_tools (m : MCPManager) : List QualifiedTool :=
  m.servers.foldl (fun all_tools nv => all_tools ++ nv.2.get_tools) []

/-- `MCPManager.call_tool` (lines 360-372): split the qualified name on
the first `__`, look the server segment up in the registry, and
delegate with the remaining segment as the tool name. -/
def MCPManager.call_tool (m : MCPManager) (pending : List String)
    (request_id tool_name : String) (arguments : JValue)
    (respond : JValue → SendOutcome) : Except PyError JValue × List String :=
  match findSplit2 tool_name.data with
  | none => (.ok (invalidNameObj tool_name), pending)
  | some (p, r) =>
    let server_name : String := ⟨p⟩
    let original_tool_name : String := ⟨r⟩
    match dictLookup m.servers server_name with
    | none => (.ok (unknownServerObj server_name), pending)
    | some server => server.call_tool pending request_id original_tool_name arguments respond

/-- One line read by `_read_responses` (lines 191-212), by how its
handling behaves:
* `malformedJson`: the line decodes as UTF-8 but `json.loads` raises
  `json.JSONDecodeError`, caught by the inner handler at lines 208-209
  — logged, line discarded, loop continues;
* `fatal`: obtaining or decoding the line raises outside the inner
  handler — `readline` raises `ValueError` when the line exceeds the
  10MB stream limit (line 192), or `line.decode()` raises
  `UnicodeDecodeError` (line 197); either lands in the outer handler at
  lines 211-212, which logs and lets the reader loop terminate;
* `msg fields`: a parsed JSON object message.  Messages that parse to
  non-objects are outside the modelled fragment. -/
inductive Line where
  | malformedJson : Line
  | fatal : Line
  | msg : List (String × JValue) → Line

/-- Reader-loop state: the pending-table key set and, for each resolved
id, the full message its future was resolved with (`set_result`,
line 202). -/
structure ReadState where
  pending : List String
  resolved : List (String × JValue)

/-- Processing of one surviving stdout line by `_read_responses`
(lines 196-209): a malformed-JSON line is logged and discarded; a
message whose `id` matches a pending entry pops that entry and resolves
its future with the full message; any other message is at most logged.
(The `fatal` clause is never reached by the loop below, which exits
first; it is included for totality and changes nothing.) -/
def processLine (st : ReadState) (l : Line) : ReadState :=
  match l with
  | .malformedJson => st
  | .fatal => st
  | .msg fields =>
    match lookupF fields "id" with
    | some (.str i) =>
      if i ∈ st.pending then
        ⟨st.pending.erase i, st.resolved ++ [(i, .obj fields)]⟩
      else st
    | _ => st

/-- The reader loop `_read_responses` over a finite stdout line
sequence: lines are processed in order, but a `fatal` line escapes to
the outer handler at lines 211-212 and terminates the loop, leaving all
later lines unprocessed. -/
def read_responses (st : ReadState) : List Line → ReadState
  | [] => st
  | .fatal :: _ => st
  | l :: rest => read_responses (processLine st l) rest

/-!
Operational model of the pending-request table of one session.

The table `self.pending_requests` is touched at exactly four places:
insertion at line 153 (before the write at lines 156-158), the write of
the request bytes itself, the reader-loop pop-and-resolve at lines
200-202, and the timeout deletion at line 165.  One more control path
matters: `self.process.stdin.write(...)` at line 157 and
`await self.process.stdin.drain()` at line 158 run OUTSIDE the `try` at
lines 161-167 (which catches only `asyncio.TimeoutError`), so when the
write or drain raises (e.g. a broken stdin pipe), `_send_request`
aborts between the insertion and the wait: no waiter exists, the
timeout deletion at line 165 can never run, and the remote — which
never received the request of that fresh uuid — can never answer it.
Each place becomes one event; its guard records what the code
guarantees at that point:
* `register` requires a fresh id (`uuid.uuid4()` never repeats an
  in-flight or past id);
* `write` requires the id to be pending, not yet written and not
  aborted, because in `_send_request` the single write of a request
  happens immediately after the insertion at line 153;
* `abortSend` requires the same: it is the write/drain of lines 157-158
  raising instead of completing, leaving the entry in the table;
* `resolve` requires the id to be pending and written (the reader pops
  at lines 200-201 when a response message echoes the id, which the
  remote only knows once the request bytes reached it);
* `timeoutRm` requires the id to be pending and written (only a sender
  that reached the `await` at line 162 times out and deletes at
  line 165).
-/

/-- Events on one session's pending-request table. -/
inductive SessEvent where
  | register : Nat → SessEvent
  | write : Nat → SessEvent
  | abortSend : Nat → SessEvent
  | resolve : Nat → SessEvent
  | timeoutRm : Nat → SessEvent
deriving DecidableEq

/-- Abstract session state: pending ids, ids whose request bytes were
written and are being awaited, ids whose send aborted between insertion
and wait, and all ids ever registered (for uuid freshness). -/
structure SessState where
  pending : List Nat
  written : List Nat
  aborted : List Nat
  used : List Nat

/-- Guarded effect of one event on the session state; `none` when the
guard fails (the event cannot occur there in the code). -/
def stepFn (s : SessState) : SessEvent → Option SessState
  | .register id =>
    if id ∈ s.used then none
    else some ⟨id :: s.pending, s.written, s.aborted, id :: s.used⟩
  | .write id =>
    if id ∈ s.pending ∧ id ∉ s.written ∧ id ∉ s.aborted then
      some ⟨s.pending, id :: s.written, s.aborted, s.used⟩
    else none
  | .abortSend id =>
    if id ∈ s.pending ∧ id ∉ s.written ∧ id ∉ s.aborted then
      some ⟨s.pending, s.written, id :: s.aborted, s.used⟩
    else none
  | .resolve id =>
    if id ∈ s.pending ∧ id ∈ s.written then
      some ⟨s.pending.erase id, s.written, s.aborted, s.used⟩
    else none
  | .timeoutRm id =>
    if id ∈ s.pending ∧ id ∈ s.written then
      some ⟨s.pending.erase id, s.written, s.aborted, s.used⟩
    else none

/-- Run a sequence of events from a state; `none` when some guard
fails. -/
def runFrom (s : SessState) : List SessEvent → Option SessState
  | [] => some s
  | e :: es =>
    match stepFn s e with
    | some s1 => runFrom s1 es
    | none => none

/-- The empty initial table of a fresh session (line 31). -/
def initSess : SessState := ⟨[], [], [], []⟩

/-- How many times a trace settles the entry of `id`: resolutions by
the reader plus removals by timeout. -/
def settleCount (tr : List SessEvent) (id : Nat) : Nat :=
  tr.count (.resolve id) + tr.count (.timeoutRm id)

/-- Structural invariant of reachable session states. -/
def SessWF (s : SessState) : Prop :=
  s.pending.Nodup ∧ ∀ id ∈ s.pending, id ∈ s.used

/-!
Characterization functions written from the words of the specification
("text-typed entries are concatenated with newline separators into
resultText; image-typed entries are collected into the images sequence
with their declared mime type (default image/png if absent)"), used to
state the result-shaping claims against `processResponse`.
-/

/-- Per the specification: the text carried by a text-typed content
entry, `none` for any other entry. -/
def specTextOf (item : JValue) : Option String :=
  match item with
  | .obj fs =>
    match lookupF fs "type" with
    | some (.str "text") =>
      some (match lookupF fs "text" with
        | some (.str s) => s
        | _ => "")
    | _ => none
  | _ => none

/-- The raw JSON value collected for a text-typed entry. -/
def specTextVal (item : JValue) : Option JValue :=
  match item with
  | .obj fs =>
    match lookupF fs "type" with
    | some (.str "text") => some ((lookupF fs "text").getD (.str ""))
    | _ => none
  | _ => none

/-- Per the specification: the image record collected for an
image-typed content entry, with the declared mime type defaulting to
`image/png`. -/
def specImageOf (item : JValue) : Option JValue :=
  match item with
  | .obj fs =>
    match lookupF fs "type" with
    | some (.str "image") =>
      some (.obj [("data", (lookupF fs "data").getD (.str "")),
                  ("mimeType", (lookupF fs "mimeType").getD (.str "image/png"))])
    | _ => none
  | _ => none

/-- A content item the scan of lines 252-259 traverses without
raising, with a joinable text field: the item is a dict and, when
text-typed, its `text` entry (if any) is a string. -/
def wfItem (item : JValue) : Bool :=
  match item with
  | .obj fs =>
    match lookupF fs "type" with
    | some (.str tag) =>
      if tag = "text" then
        match lookupF fs "text" with
        | none => true
        | some (.str _) => true
        | some _ => false
      else true
    | _ => true
  | _ => false

/-- A `result` value that the content scan of `call_tool` processes
without raising. -/
def wfResult (result : JValue) : Bool :=
  match result with
  | .obj fs =>
    match lookupF fs "content" with
    | none => true
    | some (.arr items) => items.all wfItem
    | some _ => false
  | _ => false

/-- A response dict that `call_tool` post-processes without raising:
an error object carrying a `message`, or a result whose content list is
traversable. -/
def wfResponse (response : JValue) : Bool :=
  match response with
  | .obj fs =>
    match lookupF fs "error" with
    | some (.obj efs) => (lookupF efs "message").isSome
    | some _ => false
    | none =>
      match lookupF fs "result" with
      | none => true
      | some r => wfResult r
  | _ => false

/-- A send outcome that `call_tool` turns into a returned payload. -/
def wfOutcome (o : SendOutcome) : Bool :=
  match o with
  | .timeout => true
  | .reply msg => wfResponse msg

/-- Spec-side newline joining ("text-typed entries are concatenated
with newline separators"). -/
def joinTexts : List String → String
  | [] => ""
  | [s] => s
  | s :: y :: rest => s ++ "\n" ++ joinTexts (y :: rest)

/-- The claim of pairwise-distinct qualified names over a catalog, as
stated. -/
def pairwiseDistinctNames (m : MCPManager) : Prop :=
  ∀ i j : Fin m.get_all_tools.length, i ≠ j →
    (m.get_all_tools.get i).name ≠ (m.get_all_tools.get j).name

/-- A session whose catalog lists the tool name `t` twice (a raw
`tools/list` result is an arbitrary list and may repeat a name). -/
def srvDup : MCPServer := ⟨"s", [⟨"t", []⟩, ⟨"t", []⟩], true, "120.0"⟩

/-- Registry holding only `srvDup`. -/
def mDup : MCPManager := ⟨[("s", srvDup)]⟩

/-- Server `a` declaring tool `b__c`. -/
def srvCrossA : MCPServer := ⟨"a", [⟨"b__c", []⟩], true, "120.0"⟩

/-- Server `a__b` declaring tool `c`. -/
def srvCrossAB : MCPServer := ⟨"a__b", [⟨"c", []⟩], true, "120.0"⟩

/-- Registry where two different servers with different tool names
produce the same qualified name `a__b__c`. -/
def mCross : MCPManager := ⟨[("a", srvCrossA), ("a__b", srvCrossAB)]⟩

/-- Server `a` with tool `t`. -/
def srvPairA : MCPServer := ⟨"a", [⟨"t", []⟩], true, "120.0"⟩

/-- Server `b` with the identically named tool `t`. -/
def srvPairB : MCPServer := ⟨"b", [⟨"t", []⟩], true, "120.0"⟩

/-- Registry with two servers declaring identical original tool
names. -/
def mPair : MCPManager := ⟨[("a", srvPairA), ("b", srvPairB)]⟩

/-- A running session named `s` with an empty catalog. -/
def srvS : MCPServer := ⟨"s", [], true, "120.0"⟩

/-- Registry holding only `srvS`. -/
def mS : MCPManager := ⟨[("s", srvS)]⟩

/-- A child process whose reply to any request is a protocol error
object that lacks a `message` entry. -/
def respNoMsg : JValue → SendOutcome :=
  fun _ => .reply (.obj [("error", .obj [("code", .num 5)])])

/-- The `name` entry of the `params` of a request object (used by the
echoing test process below). -/
def reqName (req : JValue) : JValue :=
  match req with
  | .obj fs =>
    match lookupF fs "params" with
    | some (.obj ps) => (lookupF ps "name").getD .null
    | _ => .null
  | _ => .null

/-- A child process that answers every `tools/call` with a single
text content entry holding the tool name it was invoked with. -/
def echoRespond : JValue → SendOutcome :=
  fun req => .reply (.obj [("result", .obj [("content",
    .arr [.obj [("type", .str "text"), ("text", reqName req)]])])])

/-- A running session named `x`. -/
def srvX : MCPServer := ⟨"x", [], true, "120.0"⟩

/-- A non-running session named `x_`. -/
def srvXU : MCPServer := ⟨"x_", [], false, "120.0"⟩

/-- Registry with sessions `x` (running) and `x_` (not running). -/
def mTrail : MCPManager := ⟨[("x", srvX), ("x_", srvXU)]⟩

/-- A registered session named `d` whose process is not running. -/
def srvDead : MCPServer := ⟨"d", [], false, "120.0"⟩

/-- Registry holding only the dead session `d`. -/
def mDead : MCPManager := ⟨[("d", srvDead)]⟩

/-- The successfully starting server of the partial-failure scenario. -/
def srvA6 : MCPServer := ⟨"A", [⟨"read_file", []⟩], true, "120.0"⟩

/-- Spawn behavior: entry `A` starts, every other entry (such as `B`,
whose command is invalid) raises during start and is caught. -/
def spawn6 : String → JValue → Option MCPServer :=
  fun n _ => if n = "A" then some srvA6 else none

/-- A two-entry configuration where `B` fails to start. -/
def cfg6 : List (String × JValue) := [("A", .null), ("B", .null)]

/-- The result dict fields of the round-trip example: one text content
entry `hello`. -/
def helloResultFields : List (String × JValue) :=
  [("content", .arr [.obj [("type", .str "text"), ("text", .str "hello")]])]

/-- The full response fields of the round-trip example. -/
def helloRespFields : List (String × JValue) :=
  [("result", .obj helloResultFields)]

/-- A witness trace of the pending-table machine: one request
registered, written, and resolved by the reader. -/
def tr2 : List SessEvent := [.register 5, .write 5, .resolve 5]

/-- A trace where the send of request 0 aborts between the table
insertion (line 153) and the wait (line 162): the stdin write/drain of
lines 157-158 raises outside the `try` of lines 161-167. -/
def trLeak : List SessEvent := [.register 0, .abortSend 0]

/-- The session state after `trLeak`: request 0 still pending, never
written, its sender gone. -/
def sLeak : SessState := ⟨[0], [], [0], [0]⟩

/-- The entry of `id` is leaked: along every further valid trace it is
never settled (neither resolved nor removed by timeout) and stays in
the pending table. -/
def leakedForever (s : SessState) (id : Nat) : Prop :=
  ∀ (tr : List SessEvent) (s' : SessState), runFrom s tr = some s' →
    settleCount tr id = 0 ∧ id ∈ s'.pending

/-- A reader-loop state with one pending request. -/
def st7 : ReadState := ⟨["u1"], []⟩

/-- A valid response message for the pending request of `st7`. -/
def msg7 : List (String × JValue) := [("id", .str "u1"), ("result", .str "ok")]

/-! Lemmas about the first-occurrence split of the `__` delimiter. -/

theorem findSplit2_sound : ∀ (l p r : List Char), findSplit2 l = some (p, r) →
    l = p ++ '_' :: '_' :: r ∧ findSplit2 p = none := by
  intro l
  induction l with
  | nil => intro p r h; simp [findSplit2] at h
  | cons c tail ih =>
    intro p r h
    cases tail with
    | nil => simp [findSplit2] at h
    | cons c2 rest =>
      simp only [findSplit2] at h
      split at h
      · rename_i hg
        obtain ⟨hc, hc2⟩ := hg
        injection h with h
        injection h with hp hr
        subst hp; subst hr; subst hc; subst hc2
        exact ⟨rfl, rfl⟩
      · rename_i hg
        cases hm : findSplit2 (c2 :: rest) with
        | none => rw [hm] at h; simp at h
        | some pr =>
          obtain ⟨p1, r1⟩ := pr
          rw [hm] at h
          simp only at h
          injection h with h
          injection h with hp hr
          subst hr
          obtain ⟨htail, hsplit⟩ := ih p1 r1 hm
          subst hp
          refine ⟨by rw [htail]; rfl, ?_⟩
          cases p1 with
          | nil => rfl
          | cons d p2 =>
            have hd : c2 = d := by
              have := congrArg (fun l => l.head?) htail
              simpa using this
            subst hd
            simp only [findSplit2]
            rw [if_neg hg, hsplit]

theorem findSplit2_append : ∀ (p r : List Char), findSplit2 p = none →
    endsWithU p = false → findSplit2 (p ++ '_' :: '_' :: r) = some (p, r) := by
  intro p
  induction p with
  | nil => intro r _ _; simp [findSplit2]
  | cons c tail ih =>
    intro r hnone hend
    cases tail with
    | nil =>
      have hc : ¬(c = '_') := by simpa [endsWithU] using hend
      simp [findSplit2, hc]
    | cons c2 rest2 =>
      simp only [findSplit2] at hnone
      split at hnone
      · simp at hnone
      · rename_i hg
        cases hm : findSplit2 (c2 :: rest2) with
        | some pr => rw [hm] at hnone; obtain ⟨a, b⟩ := pr; simp at hnone
        | none =>
          have hend2 : endsWithU (c2 :: rest2) = false := by simpa [endsWithU] using hend
          have hrec := ih r hm hend2
          rw [List.cons_append] at hrec
          show findSplit2 (c :: c2 :: (rest2 ++ '_' :: '_' :: r)) = some (c :: c2 :: rest2, r)
          simp only [findSplit2]
          rw [if_neg hg, hrec]

theorem string_of_split (qn : String) (p r : List Char)
    (h : findSplit2 qn.data = some (p, r)) :
    qn = (⟨p⟩ : String) ++ "__" ++ (⟨r⟩ : String) ∧ containsDU ⟨p⟩ = false := by
  obtain ⟨hdata, hnone⟩ := findSplit2_sound qn.data p r h
  constructor
  · apply String.ext
    rw [hdata]
    simp [String.data_append]
  · simp [containsDU, hnone]

/-- C5: the supervisor's callTool splits the qualified name on the
first `__` (the server segment contains no further-left delimiter and
re-concatenates to the qualified name); a name with no delimiter yields
the invalid-tool-name error payload, an unregistered server segment
yields the unknown-server error payload, and otherwise the call is
delegated to exactly that session's callTool with the remainder after
the first `__` as the original tool name. -/
theorem c5_routing (m : MCPManager) (pending : List String) (rid qn : String)
    (args : JValue) (respond : JValue → SendOutcome) :
    (findSplit2 qn.data = none →
      m.call_tool pending rid qn args respond = (.ok (invalidNameObj qn), pending)) ∧
    (∀ p r, findSplit2 qn.data = some (p, r) →
      qn = (⟨p⟩ : String) ++ "__" ++ (⟨r⟩ : String) ∧
      containsDU ⟨p⟩ = false ∧
      (dictLookup m.servers ⟨p⟩ = none →
        m.call_tool pending rid qn args respond = (.ok (unknownServerObj ⟨p⟩), pending)) ∧
      (∀ srv, dictLookup m.servers ⟨p⟩ = some srv →
        m.call_tool pending rid qn args respond =
          srv.call_tool pending rid (⟨r⟩ : String) args respond)) := by
  constructor
  · intro h
    simp [MCPManager.call_tool, h]
  · intro p r h
    obtain ⟨hqn, hdu⟩ := string_of_split qn p r h
    refine ⟨hqn, hdu, ?_, ?_⟩
    · intro hlk
      simp [MCPManager.call_tool, h, hlk]
    · intro srv hlk
      simp [MCPManager.call_tool, h, hlk]

/-- C5 witness: at the registry holding only server `s`, the name
`nodelimiter` yields the invalid-name payload, `unknown__x` yields the
unknown-server payload, and `s__x` is delegated to the session of `s`
with tool name `x`. -/
theorem c5_routing_witness :
    MCPManager.call_tool mS [] "r1" "nodelimiter" (.obj []) (fun _ => .timeout)
      = (.ok (invalidNameObj "nodelimiter"), []) ∧
    MCPManager.call_tool mS [] "r1" "unknown__x" (.obj []) (fun _ => .timeout)
      = (.ok (unknownServerObj "unknown"), []) ∧
    MCPManager.call_tool mS [] "r1" "s__x" (.obj []) (fun _ => .timeout)
      = MCPServer.call_tool srvS [] "r1" "x" (.obj []) (fun _ => .timeout) := by
  refine ⟨?_, ?_, ?_⟩
  · exact (c5_routing mS [] "r1" "nodelimiter" (.obj []) (fun _ => .timeout)).1 (by decide)
  · exact ((c5_routing mS [] "r1" "unknown__x" (.obj []) (fun _ => .timeout)).2
      "unknown".data ['x'] (by decide)).2.2.1 (by rfl)
  · exact ((c5_routing mS [] "r1" "s__x" (.obj []) (fun _ => .timeout)).2
      ['s'] ['x'] (by decide)).2.2.2 srvS (by rfl)

/-- C10 (counterexample): `x___` ends with `__` and the part before
that trailing delimiter, `x_`, names a registered session; yet the code
splits at the FIRST `__`, so the call is delegated to session `x` with
original tool name `_`, not to `x_` (nor to `x`) with the empty string.
The echoing process makes the delegated tool name observable: the
result text is `_`, and the result is a payload rather than the
not-running error that delegation to `x_` would have produced. -/
theorem c10_counterexample :
    MCPManager.call_tool mTrail [] "r1" "x___" (.obj []) echoRespond
      = (.ok (.obj [("isError", .bool false), ("result", .str "_")]), []) ∧
    ("_" : String) ≠ "" ∧
    dictLookup mTrail.servers "x_" = some srvXU ∧ srvXU.running = false := by
  refine ⟨rfl, by decide, rfl, rfl⟩

/-- C10 (amended): empty segments are accepted rather than rejected: a
name beginning with `__` is routed with the empty string as server name
(yielding the unknown-server error when no session named the empty
string exists); and a name of the form `s ++ "__"` is delegated to the
registered session `s` with the empty string as original tool name
provided `s` contains no `__` and does not end in `_` (otherwise the
first-occurrence split falls earlier and a nonempty remainder is
delegated instead). -/
theorem c10_amended :
    (∀ (m : MCPManager) (pending : List String) (rid x : String) (args : JValue)
        (respond : JValue → SendOutcome), dictLookup m.servers "" = none →
      m.call_tool pending rid ("__" ++ x) args respond
        = (.ok (unknownServerObj ""), pending)) ∧
    (∀ (m : MCPManager) (pending : List String) (rid sname : String) (srv : MCPServer)
        (args : JValue) (respond : JValue → SendOutcome),
      containsDU sname = false → endsWithU sname.data = false →
      dictLookup m.servers sname = some srv →
      m.call_tool pending rid (sname ++ "__") args respond
        = srv.call_tool pending rid "" args respond) := by
  constructor
  · intro m pending rid x args respond hlk
    have hsplit2 : findSplit2 ('_' :: '_' :: x.data) = some ([], x.data) := by
      simp [findSplit2]
    have hemp : (⟨([] : List Char)⟩ : String) = "" := rfl
    simp only [MCPManager.call_tool, String.data_append]
    simp only [List.cons_append, List.nil_append, hsplit2, hemp, hlk]
  · intro m pending rid sname srv args respond hdu hend hlk
    have hnone : findSplit2 sname.data = none := by
      have hc := hdu
      simp only [containsDU] at hc
      cases hm : findSplit2 sname.data with
      | none => rfl
      | some pr => rw [hm] at hc; simp at hc
    have hsplit2 : findSplit2 (sname.data ++ ['_', '_']) = some (sname.data, []) := by
      exact findSplit2_append sname.data [] hnone hend
    have hmk : (⟨sname.data⟩ : String) = sname := rfl
    have hemp : (⟨([] : List Char)⟩ : String) = "" := rfl
    simp only [MCPManager.call_tool, String.data_append]
    simp only [hsplit2, hmk, hemp, hlk]

/-- C10 (witness): at the registry of `mTrail`, `__abc` yields the
unknown-server payload for the empty server name, and `x__` is
delegated to session `x` with the empty tool name. -/
theorem c10_amended_witness :
    MCPManager.call_tool mTrail [] "r1" ("__" ++ "abc") (.obj []) echoRespond
      = (.ok (unknownServerObj ""), []) ∧
    MCPManager.call_tool mTrail [] "r1" ("x" ++ "__") (.obj []) echoRespond
      = MCPServer.call_tool srvX [] "r1" "" (.obj []) echoRespond := by
  constructor
  · exact c10_amended.1 mTrail [] "r1" "abc" (.obj []) echoRespond (by rfl)
  · exact c10_amended.2 mTrail [] "r1" "x" srvX (.obj []) echoRespond
      (by decide) (by decide) (by rfl)

/-! Lemmas about catalog aggregation and qualified names. -/

theorem foldl_append_tools (l : List (String × MCPServer)) :
    ∀ acc, l.foldl (fun a nv => a ++ nv.2.get_tools) acc
      = acc ++ (l.map (fun nv => nv.2.get_tools)).flatten := by
  induction l with
  | nil => intro acc; simp
  | cons hd tl ih => intro acc; simp [List.foldl_cons, ih, List.append_assoc]

theorem mem_get_all_tools {m : MCPManager} {e : QualifiedTool} :
    e ∈ m.get_all_tools ↔ ∃ nv ∈ m.servers, e ∈ nv.2.get_tools := by
  show e ∈ m.servers.foldl (fun a nv => a ++ nv.2.get_tools) [] ↔ _
  rw [foldl_append_tools]
  simp only [List.nil_append, List.mem_flatten, List.mem_map]
  constructor
  · rintro ⟨l, ⟨nv, hnv, rfl⟩, hel⟩
    exact ⟨nv, hnv, hel⟩
  · rintro ⟨nv, hnv, hel⟩
    exact ⟨nv.2.get_tools, ⟨nv, hnv, rfl⟩, hel⟩

theorem get_tools_shape {s : MCPServer} {e : QualifiedTool} (h : e ∈ s.get_tools) :
    e.name = e.mcp_server ++ "__" ++ e.original_name := by
  simp only [MCPServer.get_tools, List.mem_map] at h
  obtain ⟨t, _, rfl⟩ := h
  rfl

theorem qname_cancel_left {a x y : String} (h : a ++ "__" ++ x = a ++ "__" ++ y) :
    x = y := by
  apply String.ext
  have hd := congrArg String.data h
  simp only [String.data_append] at hd
  simpa [List.append_assoc] using hd

theorem qname_cancel_right {a b x : String} (h : a ++ "__" ++ x = b ++ "__" ++ x) :
    a = b := by
  apply String.ext
  have hd := congrArg String.data h
  simp only [String.data_append] at hd
  exact List.append_cancel_right (List.append_cancel_right hd)

/-- C1 (counterexample): qualified names in getAllTools() are not
pairwise distinct for every pair of distinct entries.  In `mDup` one
server declares the tool name `t` twice and both catalog entries get
the qualified name `s__t`; in `mCross` two different servers with
different original names (`a` with `b__c`, `a__b` with `c`) both
produce `a__b__c`. -/
theorem c1_counterexample :
    ¬ pairwiseDistinctNames mDup ∧
    mCross.get_all_tools
      = [⟨"a__b__c", "a", "b__c", []⟩, ⟨"a__b__c", "a__b", "c", []⟩] := by
  constructor
  · intro h
    have hlen : mDup.get_all_tools.length = 2 := rfl
    have h01 : (⟨0, by rw [hlen]; omega⟩ : Fin mDup.get_all_tools.length)
        ≠ ⟨1, by rw [hlen]; omega⟩ := by
      intro heq
      have hv := congrArg Fin.val heq
      simp at hv
    exact h _ _ h01 rfl
  · rfl

/-- C1 (amended): two distinct catalog entries have distinct
qualifiedName values whenever they agree on the owner server and differ
in original name, or differ in owner server and agree in original name.
(Full pairwise distinctness fails when one server lists the same tool
name twice, or across servers through `__` embedded in names.) -/
theorem c1_amended (m : MCPManager) (e1 e2 : QualifiedTool)
    (h1 : e1 ∈ m.get_all_tools) (h2 : e2 ∈ m.get_all_tools)
    (hcase : (e1.mcp_server = e2.mcp_server ∧ e1.original_name ≠ e2.original_name) ∨
             (e1.mcp_server ≠ e2.mcp_server ∧ e1.original_name = e2.original_name)) :
    e1.name ≠ e2.name := by
  obtain ⟨nv1, _, hin1⟩ := mem_get_all_tools.mp h1
  obtain ⟨nv2, _, hin2⟩ := mem_get_all_tools.mp h2
  have hs1 := get_tools_shape hin1
  have hs2 := get_tools_shape hin2
  intro heq
  rw [hs1, hs2] at heq
  rcases hcase with ⟨hsv, hon⟩ | ⟨hsv, hon⟩
  · rw [hsv] at heq
    exact hon (qname_cancel_left heq)
  · rw [hon] at heq
    exact hsv (qname_cancel_right heq)

/-- C1 (witness): in the registry `mPair`, servers `a` and `b` declare
the identical original name `t`; their catalog entries exist and the
amended theorem yields `a__t` distinct from `b__t`. -/
theorem c1_amended_witness :
    (⟨"a__t", "a", "t", []⟩ : QualifiedTool) ∈ mPair.get_all_tools ∧
    (⟨"b__t", "b", "t", []⟩ : QualifiedTool) ∈ mPair.get_all_tools ∧
    ("a__t" : String) ≠ "b__t" := by
  have hlist : mPair.get_all_tools
      = [⟨"a__t", "a", "t", []⟩, ⟨"b__t", "b", "t", []⟩] := rfl
  have hm1 : (⟨"a__t", "a", "t", []⟩ : QualifiedTool) ∈ mPair.get_all_tools := by
    rw [hlist]; exact List.mem_cons_self _ _
  have hm2 : (⟨"b__t", "b", "t", []⟩ : QualifiedTool) ∈ mPair.get_all_tools := by
    rw [hlist]; exact List.mem_cons_of_mem _ (List.mem_cons_self _ _)
  exact ⟨hm1, hm2, c1_amended mPair _ _ hm1 hm2 (Or.inr ⟨by decide, rfl⟩)⟩

theorem pe_bind_ok {α β : Type} (a : α) (f : α → Except PyError β) :
    (Except.ok a >>= f) = f a := rfl

theorem pe_bind_err {α β : Type} (e : PyError) (f : α → Except PyError β) :
    ((Except.error e : Except PyError α) >>= f) = .error e := rfl

/-- C3: when the response slot is not resolved within the configured
timeout, `_send_request` removes the slot from the pending table and
returns the synthetic `{error:{code:-1, message:"Request timeout after
Ns"}}` object instead of raising; consequently `call_tool` against a
process that never answers returns the shaped timeout-error payload
(the timeout branch is a total returning branch, never a hang). -/
theorem c3_timeout (s : MCPServer) (pending : List String)
    (rid method tool_name : String) (params args : JValue)
    (respond : JValue → SendOutcome)
    (hrun : s.running = true) (hfree : rid ∉ pending)
    (hto : respond (mkRequest rid method params) = SendOutcome.timeout) :
    s.send_request pending rid method params respond
      = (.ok (timeoutErrorObj s.timeoutStr), pending) ∧
    s.call_tool pending rid tool_name args (fun _ => .timeout)
      = (.ok (.obj [("error", .str ("Request timeout after " ++ s.timeoutStr ++ "s")),
          ("isError", .bool true)]), pending) := by
  have herase : (pending ++ [rid]).erase rid = pending := by
    rw [List.erase_append_right _ hfree]
    simp
  have hproc : processResponse (timeoutErrorObj s.timeoutStr)
      = .ok (.obj [("error", .str ("Request timeout after " ++ s.timeoutStr ++ "s")),
          ("isError", .bool true)]) := rfl
  constructor
  · simp [MCPServer.send_request, hrun, hto, herase]
  · simp [MCPServer.call_tool, MCPServer.send_request, hrun, herase, hproc]

/-- C3 (witness): the running session `srvS` with an empty pending
table and a never-answering process returns the synthetic timeout error
from sendRequest and the shaped timeout payload from callTool. -/
theorem c3_timeout_witness :
    MCPServer.send_request srvS [] "r1" "tools/list" (.obj []) (fun _ => .timeout)
      = (.ok (timeoutErrorObj "120.0"), []) ∧
    MCPServer.call_tool srvS [] "r1" "shot" (.obj []) (fun _ => .timeout)
      = (.ok (.obj [("error", .str "Request timeout after 120.0s"),
          ("isError", .bool true)]), []) := by
  have h := c3_timeout srvS [] "r1" "tools/list" "shot" (.obj []) (.obj [])
    (fun _ => .timeout) rfl (by simp) rfl
  exact ⟨h.1, h.2⟩

theorem processResponse_err_msg (fs efs : List (String × JValue)) (msg : JValue)
    (herr : lookupF fs "error" = some (.obj efs))
    (hmsg : lookupF efs "message" = some msg) :
    processResponse (.obj fs) = .ok (.obj [("error", msg), ("isError", .bool true)]) := by
  have hin : pyIn (.obj fs) "error" = true := by simp [pyIn, herr]
  have hget : getItem (.obj fs) "error" = .ok (.obj efs) := by simp [getItem, herr]
  have hget2 : getItem (.obj efs) "message" = .ok msg := by simp [getItem, hmsg]
  simp [processResponse, hin, hget, hget2, pe_bind_ok]

theorem processResponse_err_nomsg (fs efs : List (String × JValue))
    (herr : lookupF fs "error" = some (.obj efs))
    (hmsg : lookupF efs "message" = none) :
    processResponse (.obj fs) = .error (.keyError "message") := by
  have hin : pyIn (.obj fs) "error" = true := by simp [pyIn, herr]
  have hget : getItem (.obj fs) "error" = .ok (.obj efs) := by simp [getItem, herr]
  have hget2 : getItem (.obj efs) "message" = .error (.keyError "message") := by
    simp [getItem, hmsg]
  simp [processResponse, hin, hget, hget2, pe_bind_ok, pe_bind_err]

/-- C9: the protocol-error branch of `call_tool` reads
`response["error"]["message"]` unguarded: when the error object carries
a `message` entry the branch returns the `{error: <message>,
isError: true}` payload (in particular for every timeout-synthesized
error object), and when the error object lacks a `message` entry the
subscript raises `KeyError` instead of returning an isError result. -/
theorem c9_error_message (fs efs : List (String × JValue)) :
    (∀ msg : JValue, lookupF fs "error" = some (.obj efs) →
      lookupF efs "message" = some msg →
      processResponse (.obj fs) = .ok (.obj [("error", msg), ("isError", .bool true)])) ∧
    (lookupF fs "error" = some (.obj efs) → lookupF efs "message" = none →
      processResponse (.obj fs) = .error (.keyError "message")) ∧
    (∀ t, processResponse (timeoutErrorObj t)
      = .ok (.obj [("error", .str ("Request timeout after " ++ t ++ "s")),
          ("isError", .bool true)])) := by
  refine ⟨?_, ?_, fun t => rfl⟩
  · intro msg herr hmsg
    exact processResponse_err_msg fs efs msg herr hmsg
  · intro herr hmsg
    exact processResponse_err_nomsg fs efs herr hmsg

/-- C9 (witness): an error object with a `message` yields the payload;
the same response without `message` raises `KeyError`. -/
theorem c9_error_message_witness :
    processResponse (.obj [("error", .obj [("message", .str "boom")])])
      = .ok (.obj [("error", .str "boom"), ("isError", .bool true)]) ∧
    processResponse (.obj [("error", .obj [("code", .num 5)])])
      = .error (.keyError "message") := by
  constructor
  · exact (c9_error_message [("error", .obj [("message", .str "boom")])]
      [("message", .str "boom")]).1 (.str "boom") rfl rfl
  · exact (c9_error_message [("error", .obj [("code", .num 5)])]
      [("code", .num 5)]).2.1 rfl rfl

/-! Lemmas equating the content scan of `call_tool` with the
specification-side description of result shaping. -/

theorem specTextVal_eq (item : JValue) (h : wfItem item = true) :
    specTextVal item = (specTextOf item).map JValue.str := by
  cases item with
  | obj fs =>
    cases htype : lookupF fs "type" with
    | none => simp [specTextVal, specTextOf, htype]
    | some tv =>
      cases tv with
      | str tag =>
        by_cases htag : tag = "text"
        · subst htag
          cases htext : lookupF fs "text" with
          | none => simp [specTextVal, specTextOf, htype, htext]
          | some tx =>
            cases tx with
            | str s => simp [specTextVal, specTextOf, htype, htext]
            | null => simp [wfItem, htype, htext] at h
            | bool b => simp [wfItem, htype, htext] at h
            | num n => simp [wfItem, htype, htext] at h
            | arr xs => simp [wfItem, htype, htext] at h
            | obj gs => simp [wfItem, htype, htext] at h
        · simp [specTextVal, specTextOf, htype, htag]
      | null => simp [specTextVal, specTextOf, htype]
      | bool b => simp [specTextVal, specTextOf, htype]
      | num n => simp [specTextVal, specTextOf, htype]
      | arr xs => simp [specTextVal, specTextOf, htype]
      | obj gs => simp [specTextVal, specTextOf, htype]
  | null => simp [wfItem] at h
  | bool b => simp [wfItem] at h
  | num n => simp [wfItem] at h
  | str s => simp [wfItem] at h
  | arr xs => simp [wfItem] at h

theorem extractContent_wf : ∀ items : List JValue, items.all wfItem = true →
    extractContent items
      = .ok (items.filterMap specTextVal, items.filterMap specImageOf) := by
  intro items
  induction items with
  | nil => intro _; rfl
  | cons item rest ih =>
    intro hall
    rw [List.all_cons, Bool.and_eq_true] at hall
    obtain ⟨hitem, hrest⟩ := hall
    have hr := ih hrest
    cases item with
    | obj fs =>
      cases htype : lookupF fs "type" with
      | none =>
        simp [extractContent, pyGet, htype, pe_bind_ok, hr,
          List.filterMap_cons, specTextVal, specImageOf]
      | some tv =>
        cases tv with
        | str tag =>
          by_cases htag : tag = "text"
          · subst htag
            simp [extractContent, pyGet, htype, pe_bind_ok, hr,
              List.filterMap_cons, specTextVal, specImageOf]
          · by_cases htag2 : tag = "image"
            · subst htag2
              simp [extractContent, pyGet, htype, pe_bind_ok, hr,
                List.filterMap_cons, specTextVal, specImageOf]
            · simp [extractContent, pyGet, htype, htag, htag2, pe_bind_ok, hr,
                List.filterMap_cons, specTextVal, specImageOf]
        | null =>
          simp [extractContent, pyGet, htype, pe_bind_ok, hr,
            List.filterMap_cons, specTextVal, specImageOf]
        | bool b =>
          simp [extractContent, pyGet, htype, pe_bind_ok, hr,
            List.filterMap_cons, specTextVal, specImageOf]
        | num n =>
          simp [extractContent, pyGet, htype, pe_bind_ok, hr,
            List.filterMap_cons, specTextVal, specImageOf]
        | arr xs =>
          simp [extractContent, pyGet, htype, pe_bind_ok, hr,
            List.filterMap_cons, specTextVal, specImageOf]
        | obj gs =>
          simp [extractContent, pyGet, htype, pe_bind_ok, hr,
            List.filterMap_cons, specTextVal, specImageOf]
    | null => simp [wfItem] at hitem
    | bool b => simp [wfItem] at hitem
    | num n => simp [wfItem] at hitem
    | str s => simp [wfItem] at hitem
    | arr xs => simp [wfItem] at hitem

theorem joinStrs_map : ∀ ss : List String,
    joinStrs (ss.map JValue.str) = .ok (joinTexts ss) := by
  intro ss
  induction ss with
  | nil => rfl
  | cons s rest ih =>
    cases rest with
    | nil => rfl
    | cons y rest2 =>
      simp only [List.map_cons] at ih ⊢
      simp [joinStrs, joinTexts, ih, pe_bind_ok]

theorem processResponse_noerr (fs rfs : List (String × JValue)) (items : List JValue)
    (hnoerr : lookupF fs "error" = none)
    (hres : (lookupF fs "result").getD (.obj []) = .obj rfs)
    (hcont : (lookupF rfs "content").getD (.arr []) = .arr items)
    (hwf : items.all wfItem = true) :
    processResponse (.obj fs)
      = .ok (respData ((lookupF rfs "isError").getD (.bool false))
          (if (items.filterMap specTextOf).isEmpty then dumps (.obj rfs)
           else joinTexts (items.filterMap specTextOf))
          (items.filterMap specImageOf)) := by
  have hin : pyIn (.obj fs) "error" = false := by simp [pyIn, hnoerr]
  have hpg1 : pyGet (.obj fs) "result" (.obj []) = .ok (.obj rfs) := by
    simp [pyGet, hres]
  have hpg2 : pyGet (.obj rfs) "content" (.arr []) = .ok (.arr items) := by
    simp [pyGet, hcont]
  have hext := extractContent_wf items hwf
  have htv : items.filterMap specTextVal
      = (items.filterMap specTextOf).map JValue.str := by
    rw [List.filterMap_congr (fun a ha => specTextVal_eq a (List.all_eq_true.mp hwf a ha))]
    exact (List.map_filterMap _ _ _).symm
  have hpg3 : pyGet (.obj rfs) "isError" (.bool false)
      = .ok ((lookupF rfs "isError").getD (.bool false)) := by
    simp [pyGet]
  simp only [processResponse, hin, Bool.false_eq_true, if_false, hpg1, pe_bind_ok,
    hpg2, hext, hpg3, htv]
  cases hni : items.filterMap specTextOf with
  | nil => simp
  | cons s rest =>
    simp only [List.map_cons, List.isEmpty_cons, Bool.false_eq_true, if_false]
    rw [show (JValue.str s :: List.map JValue.str rest)
      = List.map JValue.str (s :: rest) from rfl, joinStrs_map]
    simp [pe_bind_ok]

/-- C4: for a successful `tools/call` response, `call_tool` builds its
result by concatenating the text-typed content entries with newline
separators, collecting the image-typed entries (mime type defaulting to
`image/png` when absent), falling back to the serialized raw result
when no text entries exist, and copying `isError` from the result's own
flag with default false. -/
theorem c4_result_shaping (fs rfs : List (String × JValue)) (items : List JValue)
    (hnoerr : lookupF fs "error" = none)
    (hres : (lookupF fs "result").getD (.obj []) = .obj rfs)
    (hcont : (lookupF rfs "content").getD (.arr []) = .arr items)
    (hwf : items.all wfItem = true) :
    processResponse (.obj fs)
      = .ok (respData ((lookupF rfs "isError").getD (.bool false))
          (if (items.filterMap specTextOf).isEmpty then dumps (.obj rfs)
           else joinTexts (items.filterMap specTextOf))
          (items.filterMap specImageOf)) :=
  processResponse_noerr fs rfs items hnoerr hres hcont hwf

/-- C4 (witness): the round-trip instance — a result containing only
`{type:"text", text:"hello"}` yields the payload with result text
`hello` and `isError` false. -/
theorem c4_result_shaping_witness :
    processResponse (.obj helloRespFields)
      = .ok (.obj [("isError", .bool false), ("result", .str "hello")]) := by
  have h := c4_result_shaping helloRespFields helloResultFields
    [.obj [("type", .str "text"), ("text", .str "hello")]] rfl rfl rfl (by decide)
  exact h

theorem processResponse_ok_of_wf (resp : JValue) (h : wfResponse resp = true) :
    ∃ v, processResponse resp = .ok v := by
  cases resp with
  | obj fs =>
    cases herr : lookupF fs "error" with
    | some ev =>
      cases ev with
      | obj efs =>
        have hm : (lookupF efs "message").isSome = true := by
          simpa [wfResponse, herr] using h
        cases hmv : lookupF efs "message" with
        | some msg => exact ⟨_, processResponse_err_msg fs efs msg herr hmv⟩
        | none => rw [hmv] at hm; simp at hm
      | null => simp [wfResponse, herr] at h
      | bool b => simp [wfResponse, herr] at h
      | num n => simp [wfResponse, herr] at h
      | str s => simp [wfResponse, herr] at h
      | arr xs => simp [wfResponse, herr] at h
    | none =>
      cases hres : lookupF fs "result" with
      | none =>
        exact ⟨_, processResponse_noerr fs [] [] herr (by simp [hres]) rfl rfl⟩
      | some r =>
        have hwr : wfResult r = true := by simpa [wfResponse, herr, hres] using h
        cases r with
        | obj rfs =>
          cases hcont : lookupF rfs "content" with
          | none =>
            exact ⟨_, processResponse_noerr fs rfs [] herr (by simp [hres])
              (by simp [hcont]) rfl⟩
          | some cv =>
            cases cv with
            | arr items =>
              have hwf : items.all wfItem = true := by simpa [wfResult, hcont] using hwr
              exact ⟨_, processResponse_noerr fs rfs items herr (by simp [hres])
                (by simp [hcont]) hwf⟩
            | null => simp [wfResult, hcont] at hwr
            | bool b => simp [wfResult, hcont] at hwr
            | num n => simp [wfResult, hcont] at hwr
            | str s => simp [wfResult, hcont] at hwr
            | obj gs => simp [wfResult, hcont] at hwr
        | null => simp [wfResult] at hwr
        | bool b => simp [wfResult] at hwr
        | num n => simp [wfResult] at hwr
        | str s => simp [wfResult] at hwr
        | arr xs => simp [wfResult] at hwr
  | null => simp [wfResponse] at h
  | bool b => simp [wfResponse] at h
  | num n => simp [wfResponse] at h
  | str s => simp [wfResponse] at h
  | arr xs => simp [wfResponse] at h

/-- C8 (counterexample): against the running registered session `s`, a
reply whose error object has no `message` entry makes the supervisor's
callTool raise `KeyError` — a failure that propagates as an unhandled
fault past the supervisor's public operation, and is not the
unavailable-server error. -/
theorem c8_counterexample :
    MCPManager.call_tool mS [] "r1" "s__t" (.obj []) respNoMsg
      = (.error (.keyError "message"), []) ∧
    PyError.keyError "message" ≠ PyError.notRunning "s" := by
  exact ⟨rfl, by decide⟩

/-- C8 (amended): a call routed to a session whose process is not
running raises the not-running (server unavailable) exception out of
the supervisor's callTool; invalid-name and unknown-server failures are
returned as error payloads, not raised; and for a running session whose
outcome is a timeout or a well-formed response, callTool returns a
payload without fault.  However (per the counterexample) a protocol
error object lacking a `message` field raises a `KeyError` that
propagates unhandled past the supervisor's callTool. -/
theorem c8_amended :
    (∀ (m : MCPManager) (pending : List String) (rid qn : String) (args : JValue)
        (respond : JValue → SendOutcome) (p r : List Char) (srv : MCPServer),
      findSplit2 qn.data = some (p, r) → dictLookup m.servers ⟨p⟩ = some srv →
      srv.running = false →
      m.call_tool pending rid qn args respond = (.error (.notRunning srv.name), pending)) ∧
    (∀ (m : MCPManager) (pending : List String) (rid qn : String) (args : JValue)
        (respond : JValue → SendOutcome),
      findSplit2 qn.data = none →
      m.call_tool pending rid qn args respond = (.ok (invalidNameObj qn), pending)) ∧
    (∀ (m : MCPManager) (pending : List String) (rid qn : String) (args : JValue)
        (respond : JValue → SendOutcome) (p r : List Char),
      findSplit2 qn.data = some (p, r) → dictLookup m.servers ⟨p⟩ = none →
      m.call_tool pending rid qn args respond = (.ok (unknownServerObj ⟨p⟩), pending)) ∧
    (∀ (s : MCPServer) (pending : List String) (rid tool_name : String) (args : JValue)
        (respond : JValue → SendOutcome),
      s.running = true →
      wfOutcome (respond (mkRequest rid "tools/call"
        (.obj [("name", .str tool_name), ("arguments", args)]))) = true →
      ∃ v p1, s.call_tool pending rid tool_name args respond = (.ok v, p1)) := by
  refine ⟨?_, ?_, ?_, ?_⟩
  · intro m pending rid qn args respond p r srv hsplit hlk hrun
    simp [MCPManager.call_tool, hsplit, hlk, MCPServer.call_tool,
      MCPServer.send_request, hrun]
  · intro m pending rid qn args respond hsplit
    simp [MCPManager.call_tool, hsplit]
  · intro m pending rid qn args respond p r hsplit hlk
    simp [MCPManager.call_tool, hsplit, hlk]
  · intro s pending rid tool_name args respond hrun hwfo
    cases ho : respond (mkRequest rid "tools/call"
        (.obj [("name", .str tool_name), ("arguments", args)])) with
    | timeout =>
      refine ⟨.obj [("error", .str ("Request timeout after " ++ s.timeoutStr ++ "s")),
        ("isError", .bool true)], (pending ++ [rid]).erase rid, ?_⟩
      have hproc : processResponse (timeoutErrorObj s.timeoutStr)
          = .ok (.obj [("error", .str ("Request timeout after " ++ s.timeoutStr ++ "s")),
            ("isError", .bool true)]) := rfl
      simp [MCPServer.call_tool, MCPServer.send_request, hrun, ho, hproc]
    | reply msg =>
      have hwfr : wfResponse msg = true := by
        rw [ho] at hwfo
        simpa [wfOutcome] using hwfo
      obtain ⟨v, hv⟩ := processResponse_ok_of_wf msg hwfr
      refine ⟨v, (pending ++ [rid]).erase rid, ?_⟩
      simp [MCPServer.call_tool, MCPServer.send_request, hrun, ho, hv]

/-- C8 (witness): the dead session `d` makes `d__t` raise the
not-running error; `plain` and `nope__t` return payloads; and the
running `s` with a never-answering process returns a payload. -/
theorem c8_amended_witness :
    MCPManager.call_tool mDead [] "r1" "d__t" (.obj []) echoRespond
      = (.error (.notRunning "d"), []) ∧
    MCPManager.call_tool mDead [] "r1" "plain" (.obj []) echoRespond
      = (.ok (invalidNameObj "plain"), []) ∧
    MCPManager.call_tool mDead [] "r1" "nope__t" (.obj []) echoRespond
      = (.ok (unknownServerObj "nope"), []) ∧
    (∃ v p1, MCPServer.call_tool srvS [] "r1" "t" (.obj [])
      (fun _ => .timeout) = (.ok v, p1)) := by
  refine ⟨?_, ?_, ?_, ?_⟩
  · exact c8_amended.1 mDead [] "r1" "d__t" (.obj []) echoRespond
      ['d'] ['t'] srvDead (by decide) (by rfl) rfl
  · exact c8_amended.2.1 mDead [] "r1" "plain" (.obj []) echoRespond (by decide)
  · exact c8_amended.2.2.1 mDead [] "r1" "nope__t" (.obj []) echoRespond
      "nope".data ['t'] (by decide) (by rfl)
  · exact c8_amended.2.2.2 srvS [] "r1" "t" (.obj []) (fun _ => .timeout) rfl rfl

/-! Lemmas about registry construction in `start_all`. -/

theorem dictSet_mem_self (d : List (String × MCPServer)) (k : String) (v : MCPServer) :
    (k, v) ∈ dictSet d k v := by
  induction d with
  | nil => simp [dictSet]
  | cons hd tl ih =>
    obtain ⟨k1, v1⟩ := hd
    simp only [dictSet]
    by_cases hk : k1 = k
    · simp [hk]
    · simp only [if_neg hk]
      exact List.mem_cons_of_mem _ ih

theorem dictSet_mem_of_ne (d : List (String × MCPServer)) (k1 k : String)
    (v1 v : MCPServer) (hne : k1 ≠ k) (h : (k, v) ∈ d) :
    (k, v) ∈ dictSet d k1 v1 := by
  induction d with
  | nil => simp at h
  | cons hd tl ih =>
    obtain ⟨kh, vh⟩ := hd
    simp only [dictSet]
    by_cases hk : kh = k1
    · subst hk
      rw [if_pos rfl]
      rcases List.mem_cons.mp h with heq | htl
      · exact absurd (congrArg Prod.fst heq).symm hne
      · exact List.mem_cons_of_mem _ htl
    · rcases List.mem_cons.mp h with heq | htl
      · rw [if_neg hk, heq]
        exact List.mem_cons_self _ _
      · rw [if_neg hk]
        exact List.mem_cons_of_mem _ (ih htl)

theorem start_all_preserve (spawn : String → JValue → Option MCPServer)
    (l : List (String × JValue)) (name : String) (srv : MCPServer) :
    ∀ acc, name ∉ l.map Prod.fst → (name, srv) ∈ acc →
    (name, srv) ∈ l.foldl (fun acc nc =>
      match spawn nc.1 nc.2 with
      | some server => dictSet acc nc.1 server
      | none => acc) acc := by
  induction l with
  | nil => intro acc _ h; exact h
  | cons hd tl ih =>
    intro acc hnot hmem
    simp only [List.map_cons, List.mem_cons, not_or] at hnot
    obtain ⟨hne, hnot2⟩ := hnot
    simp only [List.foldl_cons]
    apply ih _ hnot2
    cases hs : spawn hd.1 hd.2 with
    | some server =>
      simp only [hs]
      exact dictSet_mem_of_ne acc hd.1 name server srv (fun h => hne h.symm) hmem
    | none => simpa [hs] using hmem

theorem start_all_mem (spawn : String → JValue → Option MCPServer) :
    ∀ (cfg : List (String × JValue)) (acc : List (String × MCPServer))
      (name : String) (sc : JValue) (srv : MCPServer),
    (name, sc) ∈ cfg → (cfg.map Prod.fst).Nodup → spawn name sc = some srv →
    (name, srv) ∈ cfg.foldl (fun acc nc =>
      match spawn nc.1 nc.2 with
      | some server => dictSet acc nc.1 server
      | none => acc) acc := by
  intro cfg
  induction cfg with
  | nil => intro acc name sc srv hmem _ _; simp at hmem
  | cons hd tl ih =>
    intro acc name sc srv hmem hnodup hspawn
    simp only [List.map_cons, List.nodup_cons] at hnodup
    obtain ⟨hnotin, hnodup2⟩ := hnodup
    rcases List.mem_cons.mp hmem with heq | htl
    · subst heq
      simp only [List.foldl_cons, hspawn]
      exact start_all_preserve spawn tl name srv _ hnotin (dictSet_mem_self acc name srv)
    · simp only [List.foldl_cons]
      exact ih _ name sc srv htl hnodup2 hspawn

/-- C6: a failure to start one configured entry is caught and that
entry is excluded, without preventing any other entry from being
registered: every entry whose spawn succeeds ends up in the registry
(whatever `spawn` does on all other entries, including failing), and
its prefixed tools appear in getAllTools(). -/
theorem c6_partial_failure (cfg : List (String × JValue))
    (spawn : String → JValue → Option MCPServer) (name : String) (sc : JValue)
    (srv : MCPServer) (hnodup : (cfg.map Prod.fst).Nodup)
    (hmem : (name, sc) ∈ cfg) (hspawn : spawn name sc = some srv) :
    (name, srv) ∈ (MCPManager.start_all cfg spawn).servers ∧
    ∀ t ∈ srv.get_tools, t ∈ (MCPManager.start_all cfg spawn).get_all_tools := by
  have hm : (name, srv) ∈ (MCPManager.start_all cfg spawn).servers :=
    start_all_mem spawn cfg [] name sc srv hmem hnodup hspawn
  exact ⟨hm, fun t ht => mem_get_all_tools.mpr ⟨(name, srv), hm, ht⟩⟩

/-- C6 (witness): in the two-entry configuration where entry `B` fails
to start, `startAll` still registers server `A` and its qualified tool
appears in getAllTools(). -/
theorem c6_partial_failure_witness :
    ("A", srvA6) ∈ (MCPManager.start_all cfg6 spawn6).servers ∧
    (⟨"A__read_file", "A", "read_file", []⟩ : QualifiedTool)
      ∈ (MCPManager.start_all cfg6 spawn6).get_all_tools := by
  have h := c6_partial_failure cfg6 spawn6 "A" .null srvA6 (by decide)
    (List.mem_cons_self _ _) rfl
  exact ⟨h.1, h.2 _ (List.mem_cons_self _ _)⟩

/-- C7 (counterexample): not every malformed line is survived.  A line
whose handling raises outside the inner `json.JSONDecodeError` handler
(non-UTF-8 bytes at line 197, or an over-limit `readline` at line 192)
terminates the reader loop through the outer handler at lines 211-212,
so the subsequent valid response for the pending request `u1` is never
processed: the state is unchanged and `u1` is not resolved — whereas
without that line the same response does resolve it. -/
theorem c7_counterexample :
    read_responses st7 [Line.fatal, Line.msg msg7] = st7 ∧
    ("u1", JValue.obj msg7) ∉ (read_responses st7 [Line.fatal, Line.msg msg7]).resolved ∧
    ("u1", JValue.obj msg7) ∈ (read_responses st7 [Line.msg msg7]).resolved := by
  refine ⟨rfl, ?_, ?_⟩
  · intro h
    have hres : (read_responses st7 [Line.fatal, Line.msg msg7]).resolved = [] := rfl
    rw [hres] at h
    exact List.not_mem_nil _ h
  · have hres : (read_responses st7 [Line.msg msg7]).resolved
        = [("u1", JValue.obj msg7)] := rfl
    rw [hres]
    exact List.mem_cons_self _ _

/-- C7 (amended): the reader loop survives exactly the malformed lines
whose parse failure is `json.JSONDecodeError`: such a line is logged
and discarded without terminating the loop or affecting any other
resolution (deleting it from the line sequence changes nothing), and a
subsequent valid response still resolves its pending request.  A line
raising outside that handler (non-UTF-8 bytes, over-limit line)
terminates the loop and discards everything after it. -/
theorem c7_amended :
    (∀ (st : ReadState) (pre post : List Line),
      read_responses st (pre ++ Line.malformedJson :: post)
        = read_responses st (pre ++ post)) ∧
    (∀ (st : ReadState) (i : String) (fields : List (String × JValue)),
      lookupF fields "id" = some (.str i) → i ∈ st.pending →
      (i, .obj fields)
        ∈ (read_responses st [Line.malformedJson, Line.msg fields]).resolved) ∧
    (∀ (st : ReadState) (post : List Line),
      read_responses st (Line.fatal :: post) = st) := by
  refine ⟨?_, ?_, fun st post => rfl⟩
  · intro st pre post
    induction pre generalizing st with
    | nil => rfl
    | cons l rest ih =>
      cases l with
      | malformedJson => exact ih st
      | fatal => rfl
      | msg fields => exact ih (processLine st (.msg fields))
  · intro st i fields hid hp
    show (i, JValue.obj fields)
      ∈ (processLine (processLine st .malformedJson) (.msg fields)).resolved
    simp [processLine, hid, hp]

/-- C7 (witness): with request `u1` pending, a malformed-JSON line
followed by the valid response for `u1` still resolves `u1`; and a
fatal line leaves the reader state unchanged whatever follows. -/
theorem c7_amended_witness :
    ("u1", JValue.obj msg7)
      ∈ (read_responses st7 [Line.malformedJson, Line.msg msg7]).resolved ∧
    read_responses st7 [Line.fatal, Line.malformedJson] = st7 := by
  exact ⟨c7_amended.2.1 st7 "u1" msg7 rfl (by decide),
    c7_amended.2.2 st7 [Line.malformedJson]⟩

/-! Lemmas about the pending-table event machine. -/

theorem sessWF_init : SessWF initSess :=
  ⟨List.nodup_nil, fun id h => absurd h (by simp [initSess])⟩

theorem sessWF_step (s s1 : SessState) (e : SessEvent) (hwf : SessWF s)
    (hstep : stepFn s e = some s1) : SessWF s1 := by
  obtain ⟨hnd, hsub⟩ := hwf
  cases e with
  | register id =>
    simp only [stepFn] at hstep
    split at hstep
    · simp at hstep
    · rename_i hnotused
      injection hstep with h
      subst h
      refine ⟨?_, ?_⟩
      · rw [List.nodup_cons]
        exact ⟨fun hmem => hnotused (hsub id hmem), hnd⟩
      · intro x hx
        rcases List.mem_cons.mp hx with heq | hx2
        · subst heq; exact List.mem_cons_self _ _
        · exact List.mem_cons_of_mem _ (hsub x hx2)
  | write id =>
    simp only [stepFn] at hstep
    split at hstep
    · injection hstep with h
      subst h
      exact ⟨hnd, hsub⟩
    · simp at hstep
  | abortSend id =>
    simp only [stepFn] at hstep
    split at hstep
    · injection hstep with h
      subst h
      exact ⟨hnd, hsub⟩
    · simp at hstep
  | resolve id =>
    simp only [stepFn] at hstep
    split at hstep
    · injection hstep with h
      subst h
      exact ⟨hnd.erase id, fun x hx => hsub x (List.mem_of_mem_erase hx)⟩
    · simp at hstep
  | timeoutRm id =>
    simp only [stepFn] at hstep
    split at hstep
    · injection hstep with h
      subst h
      exact ⟨hnd.erase id, fun x hx => hsub x (List.mem_of_mem_erase hx)⟩
    · simp at hstep

theorem runFrom_append_some : ∀ (tr1 tr2 : List SessEvent) (s s2 : SessState),
    runFrom s (tr1 ++ tr2) = some s2 →
    ∃ s1, runFrom s tr1 = some s1 ∧ runFrom s1 tr2 = some s2 := by
  intro tr1
  induction tr1 with
  | nil => intro tr2 s s2 h; exact ⟨s, rfl, h⟩
  | cons e rest ih =>
    intro tr2 s s2 h
    rw [List.cons_append] at h
    simp only [runFrom] at h
    cases hs : stepFn s e with
    | none => rw [hs] at h; simp at h
    | some s1 =>
      rw [hs] at h
      obtain ⟨smid, h1, h2⟩ := ih tr2 s1 s2 h
      refine ⟨smid, ?_, h2⟩
      simp only [runFrom, hs]
      exact h1

theorem pending_register : ∀ (tr : List SessEvent) (s s' : SessState),
    runFrom s tr = some s' → ∀ id, id ∈ s'.pending →
    id ∈ s.pending ∨ SessEvent.register id ∈ tr := by
  intro tr
  induction tr with
  | nil =>
    intro s s' h id hmem
    injection h with h
    subst h
    exact Or.inl hmem
  | cons e rest ih =>
    intro s s' h id hmem
    simp only [runFrom] at h
    cases hs : stepFn s e with
    | none => rw [hs] at h; simp at h
    | some s1 =>
      rw [hs] at h
      rcases ih s1 s' h id hmem with h1 | h2
      · cases e with
        | register id2 =>
          simp only [stepFn] at hs
          split at hs
          · simp at hs
          · injection hs with hseq
            subst hseq
            rcases List.mem_cons.mp h1 with heq | hmem2
            · subst heq
              exact Or.inr (List.mem_cons_self _ _)
            · exact Or.inl hmem2
        | write id2 =>
          simp only [stepFn] at hs
          split at hs
          · injection hs with hseq
            subst hseq
            exact Or.inl h1
          · simp at hs
        | abortSend id2 =>
          simp only [stepFn] at hs
          split at hs
          · injection hs with hseq
            subst hseq
            exact Or.inl h1
          · simp at hs
        | resolve id2 =>
          simp only [stepFn] at hs
          split at hs
          · injection hs with hseq
            subst hseq
            exact Or.inl (List.mem_of_mem_erase h1)
          · simp at hs
        | timeoutRm id2 =>
          simp only [stepFn] at hs
          split at hs
          · injection hs with hseq
            subst hseq
            exact Or.inl (List.mem_of_mem_erase h1)
          · simp at hs
      · exact Or.inr (List.mem_cons_of_mem _ h2)

theorem settleCount_cons (e : SessEvent) (tr : List SessEvent) (id : Nat) :
    settleCount (e :: tr) id = settleCount tr id
      + ((if e = SessEvent.resolve id then 1 else 0)
        + (if e = SessEvent.timeoutRm id then 1 else 0)) := by
  cases e with
  | register id2 => simp [settleCount, List.count_cons]
  | write id2 => simp [settleCount, List.count_cons]
  | abortSend id2 => simp [settleCount, List.count_cons]
  | resolve id2 =>
    by_cases h : id2 = id
    · subst h; simp [settleCount, List.count_cons]; omega
    · have hne : id ≠ id2 := fun hh => h hh.symm
      simp [settleCount, List.count_cons, h, hne]
  | timeoutRm id2 =>
    by_cases h : id2 = id
    · subst h; simp [settleCount, List.count_cons]; omega
    · have hne : id ≠ id2 := fun hh => h hh.symm
      simp [settleCount, List.count_cons, h, hne]

theorem bound_step (s s1 : SessState) (e : SessEvent) (id : Nat) (hwf : SessWF s)
    (hs : stepFn s e = some s1) :
    ((if e = SessEvent.resolve id then 1 else 0)
      + (if e = SessEvent.timeoutRm id then 1 else 0))
    + (if id ∈ s1.used then (if id ∈ s1.pending then 1 else 0) else 1)
      ≤ (if id ∈ s.used then (if id ∈ s.pending then 1 else 0) else 1) := by
  cases e with
  | register id2 =>
    have hz1 : (if (SessEvent.register id2 : SessEvent) = SessEvent.resolve id
        then (1 : Nat) else 0) = 0 := by simp
    have hz2 : (if (SessEvent.register id2 : SessEvent) = SessEvent.timeoutRm id
        then (1 : Nat) else 0) = 0 := by simp
    rw [hz1, hz2]
    simp only [stepFn] at hs
    split at hs
    · simp at hs
    · rename_i hnotused
      injection hs with hseq
      subst hseq
      dsimp only
      by_cases hid : id2 = id
      · subst hid
        rw [if_neg hnotused, if_pos (List.mem_cons_self id2 s.used),
          if_pos (List.mem_cons_self id2 s.pending)]
      · have hne : id ≠ id2 := fun hh => hid hh.symm
        have hmu : (id ∈ id2 :: s.used) ↔ (id ∈ s.used) := by
          simp [List.mem_cons, hne]
        have hmp : (id ∈ id2 :: s.pending) ↔ (id ∈ s.pending) := by
          simp [List.mem_cons, hne]
        simp only [hmu, hmp]
        omega
  | write id2 =>
    have hz1 : (if (SessEvent.write id2 : SessEvent) = SessEvent.resolve id
        then (1 : Nat) else 0) = 0 := by simp
    have hz2 : (if (SessEvent.write id2 : SessEvent) = SessEvent.timeoutRm id
        then (1 : Nat) else 0) = 0 := by simp
    rw [hz1, hz2]
    simp only [stepFn] at hs
    split at hs
    · injection hs with hseq
      subst hseq
      dsimp only
      omega
    · simp at hs
  | abortSend id2 =>
    have hz1 : (if (SessEvent.abortSend id2 : SessEvent) = SessEvent.resolve id
        then (1 : Nat) else 0) = 0 := by simp
    have hz2 : (if (SessEvent.abortSend id2 : SessEvent) = SessEvent.timeoutRm id
        then (1 : Nat) else 0) = 0 := by simp
    rw [hz1, hz2]
    simp only [stepFn] at hs
    split at hs
    · injection hs with hseq
      subst hseq
      dsimp only
      omega
    · simp at hs
  | resolve id2 =>
    have hz2 : (if (SessEvent.resolve id2 : SessEvent) = SessEvent.timeoutRm id
        then (1 : Nat) else 0) = 0 := by simp
    rw [hz2]
    simp only [stepFn] at hs
    split at hs
    · rename_i hguard2
      have hpend : id2 ∈ s.pending := hguard2.1
      injection hs with hseq
      subst hseq
      dsimp only
      by_cases hid : id2 = id
      · subst hid
        rw [if_pos rfl]
        have hused : id2 ∈ s.used := hwf.2 id2 hpend
        have hnotp : id2 ∉ s.pending.erase id2 := hwf.1.not_mem_erase
        rw [if_pos hused, if_pos hused, if_neg hnotp, if_pos hpend]
      · rw [if_neg (by simpa using hid)]
        have hmp : (id ∈ s.pending.erase id2) ↔ (id ∈ s.pending) :=
          List.mem_erase_of_ne (fun hh => hid hh.symm)
        simp only [hmp]
        omega
    · simp at hs
  | timeoutRm id2 =>
    have hz1 : (if (SessEvent.timeoutRm id2 : SessEvent) = SessEvent.resolve id
        then (1 : Nat) else 0) = 0 := by simp
    rw [hz1]
    simp only [stepFn] at hs
    split at hs
    · rename_i hguard
      injection hs with hseq
      subst hseq
      dsimp only
      by_cases hid : id2 = id
      · subst hid
        rw [if_pos rfl]
        have hused : id2 ∈ s.used := hwf.2 id2 hguard.1
        have hnotp : id2 ∉ s.pending.erase id2 := hwf.1.not_mem_erase
        rw [if_pos hused, if_pos hused, if_neg hnotp, if_pos hguard.1]
      · rw [if_neg (by simpa using hid)]
        have hmp : (id ∈ s.pending.erase id2) ↔ (id ∈ s.pending) :=
          List.mem_erase_of_ne (fun hh => hid hh.symm)
        simp only [hmp]
        omega
    · simp at hs

theorem settle_bound : ∀ (tr : List SessEvent) (s s' : SessState), SessWF s →
    runFrom s tr = some s' → ∀ id : Nat,
    settleCount tr id + (if id ∈ s'.pending then 1 else 0)
      ≤ (if id ∈ s.used then (if id ∈ s.pending then 1 else 0) else 1) := by
  intro tr
  induction tr with
  | nil =>
    intro s s' _ h id
    injection h with h
    subst h
    simp only [settleCount, List.count_nil]
    split_ifs <;> omega
  | cons e rest ih =>
    intro s s' hwf h id
    simp only [runFrom] at h
    cases hs : stepFn s e with
    | none => rw [hs] at h; simp at h
    | some s1 =>
      rw [hs] at h
      have hwf1 := sessWF_step s s1 e hwf hs
      have hrest := ih s1 s' hwf1 h id
      have hstep := bound_step s s1 e id hwf hs
      rw [settleCount_cons]
      omega

theorem aborted_inv : ∀ (tr : List SessEvent) (s s' : SessState),
    runFrom s tr = some s' →
    (∀ id, id ∈ s.aborted → id ∈ s.pending ∧ id ∉ s.written) →
    ∀ id, id ∈ s'.aborted → id ∈ s'.pending ∧ id ∉ s'.written := by
  intro tr
  induction tr with
  | nil =>
    intro s s' h hinv
    injection h with h
    subst h
    exact hinv
  | cons e rest ih =>
    intro s s' h hinv
    simp only [runFrom] at h
    cases hs : stepFn s e with
    | none => rw [hs] at h; simp at h
    | some s1 =>
      rw [hs] at h
      apply ih s1 s' h
      cases e with
      | register id2 =>
        simp only [stepFn] at hs
        split at hs
        · simp at hs
        · injection hs with hseq
          subst hseq
          intro id hid
          obtain ⟨hp, hw⟩ := hinv id hid
          exact ⟨List.mem_cons_of_mem _ hp, hw⟩
      | write id2 =>
        simp only [stepFn] at hs
        split at hs
        · rename_i hguard
          injection hs with hseq
          subst hseq
          intro id hid
          obtain ⟨hp, hw⟩ := hinv id hid
          refine ⟨hp, ?_⟩
          intro hmem
          rcases List.mem_cons.mp hmem with heq | hmem2
          · exact hguard.2.2 (heq ▸ hid)
          · exact hw hmem2
        · simp at hs
      | abortSend id2 =>
        simp only [stepFn] at hs
        split at hs
        · rename_i hguard
          injection hs with hseq
          subst hseq
          intro id hid
          rcases List.mem_cons.mp hid with heq | hid2
          · subst heq
            exact ⟨hguard.1, hguard.2.1⟩
          · exact hinv id hid2
        · simp at hs
      | resolve id2 =>
        simp only [stepFn] at hs
        split at hs
        · rename_i hguard
          injection hs with hseq
          subst hseq
          intro id hid
          obtain ⟨hp, hw⟩ := hinv id hid
          have hne : id ≠ id2 := fun heq => hw (heq ▸ hguard.2)
          exact ⟨(List.mem_erase_of_ne hne).mpr hp, hw⟩
        · simp at hs
      | timeoutRm id2 =>
        simp only [stepFn] at hs
        split at hs
        · rename_i hguard
          injection hs with hseq
          subst hseq
          intro id hid
          obtain ⟨hp, hw⟩ := hinv id hid
          have hne : id ≠ id2 := fun heq => hw (heq ▸ hguard.2)
          exact ⟨(List.mem_erase_of_ne hne).mpr hp, hw⟩
        · simp at hs

theorem abort_leak : ∀ (tr : List SessEvent) (s s' : SessState) (id : Nat),
    runFrom s tr = some s' → id ∈ s.pending → id ∉ s.written → id ∈ s.aborted →
    settleCount tr id = 0 ∧ id ∈ s'.pending := by
  intro tr
  induction tr with
  | nil =>
    intro s s' id h hp _ _
    injection h with h
    subst h
    exact ⟨rfl, hp⟩
  | cons e rest ih =>
    intro s s' id h hp hw ha
    simp only [runFrom] at h
    cases hs : stepFn s e with
    | none => rw [hs] at h; simp at h
    | some s1 =>
      rw [hs] at h
      rw [settleCount_cons]
      cases e with
      | register id2 =>
        simp only [stepFn] at hs
        split at hs
        · simp at hs
        · injection hs with hseq
          subst hseq
          have hrest := ih _ s' id h (List.mem_cons_of_mem _ hp) hw ha
          refine ⟨?_, hrest.2⟩
          have hone := hrest.1
          have hz1 : (if (SessEvent.register id2 : SessEvent) = SessEvent.resolve id
              then (1 : Nat) else 0) = 0 := by simp
          have hz2 : (if (SessEvent.register id2 : SessEvent) = SessEvent.timeoutRm id
              then (1 : Nat) else 0) = 0 := by simp
          rw [hz1, hz2]
          omega
      | write id2 =>
        simp only [stepFn] at hs
        split at hs
        · rename_i hguard
          injection hs with hseq
          subst hseq
          have hne : id2 ≠ id := fun heq => hguard.2.2 (heq ▸ ha)
          have hw1 : id ∉ id2 :: s.written := by
            intro hmem
            rcases List.mem_cons.mp hmem with heq | hmem2
            · exact hne heq.symm
            · exact hw hmem2
          have hrest := ih _ s' id h hp hw1 ha
          refine ⟨?_, hrest.2⟩
          have hone := hrest.1
          have hz1 : (if (SessEvent.write id2 : SessEvent) = SessEvent.resolve id
              then (1 : Nat) else 0) = 0 := by simp
          have hz2 : (if (SessEvent.write id2 : SessEvent) = SessEvent.timeoutRm id
              then (1 : Nat) else 0) = 0 := by simp
          rw [hz1, hz2]
          omega
        · simp at hs
      | abortSend id2 =>
        simp only [stepFn] at hs
        split at hs
        · injection hs with hseq
          subst hseq
          have hrest := ih _ s' id h hp hw (List.mem_cons_of_mem _ ha)
          refine ⟨?_, hrest.2⟩
          have hone := hrest.1
          have hz1 : (if (SessEvent.abortSend id2 : SessEvent) = SessEvent.resolve id
              then (1 : Nat) else 0) = 0 := by simp
          have hz2 : (if (SessEvent.abortSend id2 : SessEvent) = SessEvent.timeoutRm id
              then (1 : Nat) else 0) = 0 := by simp
          rw [hz1, hz2]
          omega
        · simp at hs
      | resolve id2 =>
        simp only [stepFn] at hs
        split at hs
        · rename_i hguard
          injection hs with hseq
          subst hseq
          have hne : id2 ≠ id := fun heq => hw (heq ▸ hguard.2)
          have hp1 : id ∈ s.pending.erase id2 :=
            (List.mem_erase_of_ne (fun heq => hne heq.symm)).mpr hp
          have hrest := ih _ s' id h hp1 hw ha
          refine ⟨?_, hrest.2⟩
          have hone := hrest.1
          have hz1 : (if (SessEvent.resolve id2 : SessEvent) = SessEvent.resolve id
              then (1 : Nat) else 0) = 0 := if_neg (by simpa using hne)
          have hz2 : (if (SessEvent.resolve id2 : SessEvent) = SessEvent.timeoutRm id
              then (1 : Nat) else 0) = 0 := by simp
          rw [hz1, hz2]
          omega
        · simp at hs
      | timeoutRm id2 =>
        simp only [stepFn] at hs
        split at hs
        · rename_i hguard
          injection hs with hseq
          subst hseq
          have hne : id2 ≠ id := fun heq => hw (heq ▸ hguard.2)
          have hp1 : id ∈ s.pending.erase id2 :=
            (List.mem_erase_of_ne (fun heq => hne heq.symm)).mpr hp
          have hrest := ih _ s' id h hp1 hw ha
          refine ⟨?_, hrest.2⟩
          have hone := hrest.1
          have hz1 : (if (SessEvent.timeoutRm id2 : SessEvent) = SessEvent.resolve id
              then (1 : Nat) else 0) = 0 := by simp
          have hz2 : (if (SessEvent.timeoutRm id2 : SessEvent) = SessEvent.timeoutRm id
              then (1 : Nat) else 0) = 0 := if_neg (by simpa using hne)
          rw [hz1, hz2]
          omega
        · simp at hs

/-- C2 (counterexample): the trace where request 0 is inserted into the
pending table (line 153) and the stdin write/drain then raises at
lines 157-158 — outside the `try` of lines 161-167, which catches only
`asyncio.TimeoutError` — is a valid execution.  Request 0 is settled
zero times in it, and along every continuation it is never settled and
stays in the table: no waiter exists to time it out and the remote
never saw the id, refuting "each pending entry is settled exactly once
... never left unresolved indefinitely". -/
theorem c2_counterexample :
    runFrom initSess trLeak = some sLeak ∧
    settleCount trLeak 0 = 0 ∧
    leakedForever sLeak 0 := by
  refine ⟨rfl, by decide, ?_⟩
  intro tr s' h
  exact abort_leak tr sLeak s' 0 h (by decide) (by decide) (by decide)

/-- C2 (amended): over every guarded trace of the pending-table
machine: the correlation id is registered strictly before the request
bytes are written; each id is settled (resolved by the reader or
removed by timeout) at most once; a pending entry whose send completed
can always be settled by the timeout step; but an entry whose send
aborted between insertion and wait (stdin write/drain raising outside
the timeout `try`) remains pending with neither settle step ever
enabled — settlement is exactly-once only for requests whose send
completed. -/
theorem c2_amended (tr : List SessEvent) (s' : SessState)
    (h : runFrom initSess tr = some s') :
    (∀ id l1 l2, tr = l1 ++ SessEvent.write id :: l2 → SessEvent.register id ∈ l1) ∧
    (∀ id, settleCount tr id ≤ 1) ∧
    (∀ id, id ∈ s'.pending → id ∈ s'.written →
      (stepFn s' (SessEvent.timeoutRm id)).isSome = true) ∧
    (∀ id, id ∈ s'.aborted → id ∈ s'.pending ∧
      (stepFn s' (SessEvent.resolve id)).isSome = false ∧
      (stepFn s' (SessEvent.timeoutRm id)).isSome = false) := by
  refine ⟨?_, ?_, ?_, ?_⟩
  · intro id l1 l2 htr
    subst htr
    obtain ⟨s1, h1, h2⟩ := runFrom_append_some l1 (SessEvent.write id :: l2) initSess s' h
    simp only [runFrom] at h2
    cases hs : stepFn s1 (SessEvent.write id) with
    | none => rw [hs] at h2; simp at h2
    | some s2 =>
      simp only [stepFn] at hs
      split at hs
      · rename_i hguard
        rcases pending_register l1 initSess s1 h1 id hguard.1 with hinit | hreg
        · simp [initSess] at hinit
        · exact hreg
      · simp at hs
  · intro id
    have hb := settle_bound tr initSess s' sessWF_init h id
    have hone : (if id ∈ initSess.used then (if id ∈ initSess.pending then 1 else 0)
        else 1) = 1 := by simp [initSess]
    rw [hone] at hb
    omega
  · intro id hp hw
    simp [stepFn, hp, hw]
  · intro id hab
    obtain ⟨hp, hw⟩ := aborted_inv tr initSess s' h
      (by intro id2 hid2; simp [initSess] at hid2) id hab
    refine ⟨hp, ?_, ?_⟩
    · simp [stepFn, hw]
    · simp [stepFn, hw]

/-- C2 (witness): the register-write-resolve trace for id 5 is a valid
machine trace with registration before write and at most one
settlement; and in the state after the aborted send of request 0, the
entry is pending with neither settle step enabled. -/
theorem c2_amended_witness :
    SessEvent.register 5 ∈ ([SessEvent.register 5] : List SessEvent) ∧
    settleCount tr2 5 ≤ 1 ∧
    (0 ∈ sLeak.pending ∧
      (stepFn sLeak (SessEvent.resolve 0)).isSome = false ∧
      (stepFn sLeak (SessEvent.timeoutRm 0)).isSome = false) := by
  have h1 := c2_amended tr2 ⟨[], [5], [], [5]⟩ rfl
  have h2 := c2_amended trLeak sLeak rfl
  exact ⟨h1.1 5 [SessEvent.register 5] [SessEvent.resolve 5] rfl, h1.2.1 5,
    h2.2.2.2 0 (by decide)⟩

end MCPMgr
